import Mathlib

/-
Verification of the ComputerGraph repository's orchestration core against its
specification.  The relevant C++ routines (App.cpp, ParticleSystem.cpp,
FlagGenerator.cpp) are shallowly embedded below: machine floats are modelled
by exact rationals (and by real numbers where trigonometry is needed),
per-frame mutation by explicit state passing.
-/

set_option maxHeartbeats 1000000

namespace CG

/-- A 3-component vector, mirroring glm vec3 with rational components. -/
structure Vec3 where
  x : ℚ
  y : ℚ
  z : ℚ
deriving DecidableEq, Repr

/-- A 4-component color vector, mirroring glm vec4 (r, g, b, a). -/
structure Vec4 where
  r : ℚ
  g : ℚ
  b : ℚ
  a : ℚ
deriving DecidableEq, Repr

/-- Componentwise vector addition. -/
def vadd (u v : Vec3) : Vec3 := ⟨u.x + v.x, u.y + v.y, u.z + v.z⟩

/-- Scalar multiplication of a vector, mirroring v * s in glm. -/
def vsmul (s : ℚ) (v : Vec3) : Vec3 := ⟨s * v.x, s * v.y, s * v.z⟩

/-- std::clamp and glm::clamp on rationals. -/
def clampQ (x lo hi : ℚ) : ℚ := if x < lo then lo else if hi < x then hi else x

/-- glm::mix, the linear interpolation x * (1 - a) + y * a. -/
def mixQ (x y a : ℚ) : ℚ := x * (1 - a) + y * a

/-- glm::mix applied componentwise to vectors. -/
def mixV (u v : Vec3) (a : ℚ) : Vec3 := ⟨mixQ u.x v.x a, mixQ u.y v.y a, mixQ u.z v.z a⟩

/-- The smoothstep cubic 3 t^2 - 2 t^3 as written in App.cpp (t * t * (3 - 2 * t)). -/
def smoothstep (t : ℚ) : ℚ := t * t * (3 - 2 * t)

/-! ## ParticleSystem (src/ParticleSystem.cpp) -/

/-- One pooled particle, mirroring ParticleSystem::Particle. -/
structure Particle where
  position : Vec3
  velocity : Vec3
  acceleration : Vec3
  baseColor : Vec4
  startSize : ℚ
  endSize : ℚ
  lifetime : ℚ
  age : ℚ
  renderColor : Vec4
  renderSize : ℚ
deriving DecidableEq, Repr

/-- Arguments of ParticleSystem::emit, mirroring ParticleSystem::SpawnParams. -/
structure SpawnParams where
  position : Vec3
  velocity : Vec3
  acceleration : Vec3
  color : Vec4
  startSize : ℚ
  endSize : ℚ
  lifetime : ℚ
deriving DecidableEq, Repr

/-- The particle constructed by ParticleSystem::emit (lines 60-70): all fields
copied from the spawn parameters except that the stored lifetime is
std::max(0.01f, params.lifetime) and the age starts at zero. -/
def mkParticle (params : SpawnParams) : Particle :=
  { position := params.position
    velocity := params.velocity
    acceleration := params.acceleration
    baseColor := params.color
    startSize := params.startSize
    endSize := params.endSize
    lifetime := max (1/100) params.lifetime
    age := 0
    renderColor := params.color
    renderSize := params.startSize }

/-- The particle pool state: the particle vector and the capacity fixed at
construction (m_particles, m_maxParticles). -/
structure ParticleSystem where
  particles : List Particle
  maxParticles : ℕ
deriving DecidableEq, Repr

/-- The pool as constructed by ParticleSystem::ParticleSystem(maxParticles):
empty particle vector. -/
def ParticleSystem.init (maxParticles : ℕ) : ParticleSystem :=
  { particles := [], maxParticles := maxParticles }

/-- ParticleSystem::activeParticleCount, the current particle vector size. -/
def ParticleSystem.activeParticleCount (ps : ParticleSystem) : ℕ :=
  ps.particles.length

/-- ParticleSystem::emit (lines 53-73): when the pool already holds
maxParticles or more the call returns without any change, otherwise the new
particle is pushed onto the back of the vector. -/
def ParticleSystem.emit (ps : ParticleSystem) (params : SpawnParams) : ParticleSystem :=
  if ps.particles.length ≥ ps.maxParticles then ps
  else { ps with particles := ps.particles ++ [mkParticle params] }

/-- The per-particle body of the integration loop in ParticleSystem::update
(lines 85-96): advance age, integrate velocity then position, and derive the
render color alpha and render size from the clamped normalized age. -/
def updateParticle (dt : ℚ) (p : Particle) : Particle :=
  let age := p.age + dt
  let velocity := vadd p.velocity (vsmul dt p.acceleration)
  let position := vadd p.position (vsmul dt velocity)
  let lifeFrac := clampQ (age / p.lifetime) 0 1
  let alpha := clampQ (1 - lifeFrac) 0 1
  { p with
    age := age
    velocity := velocity
    position := position
    renderColor := ⟨p.baseColor.r, p.baseColor.g, p.baseColor.b, p.baseColor.a * alpha⟩
    renderSize := mixQ p.startSize p.endSize lifeFrac }

/-- The parallel-threshold constant kParallelThreshold in
ParticleSystem::update. -/
def kParallelThreshold : ℕ := 1200

/-- The two-partition run of the integration loop used above the parallel
threshold: processRange(0, mid) and processRange(mid, size) over disjoint
index ranges. -/
def processSplit (dt : ℚ) (l : List Particle) (mid : ℕ) : List Particle :=
  (l.take mid).map (updateParticle dt) ++ (l.drop mid).map (updateParticle dt)

/-- ParticleSystem::update (lines 75-115): empty pools return unchanged;
negative deltas are clamped to zero; pools larger than the parallel threshold
are processed as two partitions split at size / 2, smaller pools in one
sequential pass; finally particles with age at or past their lifetime are
erased. -/
def ParticleSystem.update (ps : ParticleSystem) (deltaSeconds : ℚ) : ParticleSystem :=
  if ps.particles.isEmpty then ps
  else
    let dt := max 0 deltaSeconds
    let processed :=
      if ps.particles.length > kParallelThreshold then
        processSplit dt ps.particles (ps.particles.length / 2)
      else
        ps.particles.map (updateParticle dt)
    { ps with particles := processed.filter (fun p => decide (p.age < p.lifetime)) }

/-- The same update with the integration loop always run as one sequential
pass over the whole pool, never split. -/
def ParticleSystem.updateSequential (ps : ParticleSystem) (deltaSeconds : ℚ) : ParticleSystem :=
  if ps.particles.isEmpty then ps
  else
    let dt := max 0 deltaSeconds
    let processed := ps.particles.map (updateParticle dt)
    { ps with particles := processed.filter (fun p => decide (p.age < p.lifetime)) }

/-- One externally visible call on the particle pool: an emit or an update. -/
inductive PSOp where
  | emit (params : SpawnParams)
  | update (deltaSeconds : ℚ)

/-- Apply one call to the pool. -/
def PSOp.apply (ps : ParticleSystem) : PSOp → ParticleSystem
  | .emit params => ps.emit params
  | .update d => ps.update d

/-- Run a sequence of emit and update calls from a given pool state. -/
def runOps (ps : ParticleSystem) (ops : List PSOp) : ParticleSystem :=
  ops.foldl PSOp.apply ps

/-- Iterate ParticleSystem::update n times with a fixed frame delta. -/
def ParticleSystem.updateN (ps : ParticleSystem) (dt : ℚ) : ℕ → ParticleSystem
  | 0 => ps
  | n + 1 => (ps.update dt).updateN dt n

/-- A concrete spawn parameter tuple used to instantiate witness theorems. -/
def pDemo : SpawnParams :=
  { position := ⟨0, 0, 0⟩
    velocity := ⟨0, 0, 0⟩
    acceleration := ⟨0, 0, 0⟩
    color := ⟨1, 1, 1, 1⟩
    startSize := 40
    endSize := 5
    lifetime := 1 }

theorem processSplit_eq_map (dt : ℚ) (l : List Particle) (mid : ℕ) :
    processSplit dt l mid = l.map (updateParticle dt) := by
  unfold processSplit
  rw [← List.map_append, List.take_append_drop]

theorem update_eq_sequential (ps : ParticleSystem) (d : ℚ) :
    ps.update d = ps.updateSequential d := by
  by_cases h : ps.particles.isEmpty
  · simp [ParticleSystem.update, ParticleSystem.updateSequential, h]
  · by_cases h2 : ps.particles.length > kParallelThreshold
    · simp [ParticleSystem.update, ParticleSystem.updateSequential, h, h2, processSplit_eq_map]
    · simp [ParticleSystem.update, ParticleSystem.updateSequential, h, h2]

/-- Claim C7: for every particle pool state and every frame delta, the result
of ParticleSystem::update is identical whether the integration loop runs as
one sequential pass over the whole pool or split into the two partitions
[0, mid) and [mid, size) used by the implementation above its parallel
threshold; every particle field, so in particular age, velocity, position,
renderColor and renderSize, agrees between the two versions. -/
theorem particle_update_split_equivalence :
    (∀ (dt : ℚ) (l : List Particle) (mid : ℕ),
      processSplit dt l mid = l.map (updateParticle dt)) ∧
    (∀ (ps : ParticleSystem) (d : ℚ), ps.update d = ps.updateSequential d) :=
  ⟨processSplit_eq_map, update_eq_sequential⟩

theorem emit_maxParticles (ps : ParticleSystem) (params : SpawnParams) :
    (ps.emit params).maxParticles = ps.maxParticles := by
  unfold ParticleSystem.emit
  split <;> rfl

theorem update_maxParticles (ps : ParticleSystem) (d : ℚ) :
    (ps.update d).maxParticles = ps.maxParticles := by
  unfold ParticleSystem.update
  split <;> rfl

theorem emit_count_le (ps : ParticleSystem) (params : SpawnParams)
    (h : ps.activeParticleCount ≤ ps.maxParticles) :
    (ps.emit params).activeParticleCount ≤ ps.maxParticles := by
  unfold ParticleSystem.emit ParticleSystem.activeParticleCount at *
  split
  · exact h
  · next hfull =>
      simp only [List.length_append, List.length_cons, List.length_nil]
      omega

theorem update_count_le (ps : ParticleSystem) (d : ℚ) :
    (ps.update d).activeParticleCount ≤ ps.activeParticleCount := by
  rw [update_eq_sequential]
  unfold ParticleSystem.updateSequential ParticleSystem.activeParticleCount
  split
  · exact le_rfl
  · calc (((ps.particles.map (updateParticle (max 0 d))).filter
        (fun p => decide (p.age < p.lifetime))).length)
        ≤ (ps.particles.map (updateParticle (max 0 d))).length := List.length_filter_le _ _
      _ = ps.particles.length := List.length_map _ _

theorem runOps_invariant (ops : List PSOp) :
    ∀ (ps : ParticleSystem), ps.activeParticleCount ≤ ps.maxParticles →
      (runOps ps ops).activeParticleCount ≤ (runOps ps ops).maxParticles := by
  induction ops with
  | nil => intro ps h; exact h
  | cons op rest ih =>
      intro ps h
      have hstep : (PSOp.apply ps op).activeParticleCount ≤ (PSOp.apply ps op).maxParticles := by
        cases op with
        | emit params =>
            simpa [PSOp.apply, emit_maxParticles] using emit_count_le ps params h
        | update d =>
            simp only [PSOp.apply, update_maxParticles]
            exact le_trans (update_count_le ps d) h
      simpa [runOps, List.foldl_cons] using ih (PSOp.apply ps op) hstep

/-- Claim C6: an emit call issued when activeParticleCount already equals the
configured maximum leaves the pool unchanged, and over every sequence of emit
and update calls from a freshly constructed pool the active particle count
never exceeds the maximum fixed at construction. -/
theorem emit_capacity_bound :
    (∀ (ps : ParticleSystem) (params : SpawnParams),
      ps.activeParticleCount = ps.maxParticles → ps.emit params = ps) ∧
    (∀ (m : ℕ) (ops : List PSOp),
      (runOps (ParticleSystem.init m) ops).activeParticleCount ≤ m) := by
  constructor
  · intro ps params h
    unfold ParticleSystem.emit
    rw [if_pos]
    exact le_of_eq h.symm
  · intro m ops
    have h0 : (ParticleSystem.init m).activeParticleCount ≤ (ParticleSystem.init m).maxParticles := by
      simp [ParticleSystem.init, ParticleSystem.activeParticleCount]
    have hmax : ∀ (ps : ParticleSystem) (l : List PSOp), (runOps ps l).maxParticles = ps.maxParticles := by
      intro ps l
      induction l generalizing ps with
      | nil => rfl
      | cons op rest ih =>
          have : (PSOp.apply ps op).maxParticles = ps.maxParticles := by
            cases op with
            | emit params => exact emit_maxParticles ps params
            | update d => exact update_maxParticles ps d
          simpa [runOps, List.foldl_cons, this] using ih (PSOp.apply ps op)
    have := runOps_invariant ops (ParticleSystem.init m) h0
    rwa [hmax (ParticleSystem.init m) ops] at this

/-- Witness for claim C6: a pool of capacity one, already holding one
particle, silently drops a further emit, and a two-emit run from an empty
capacity-one pool stays within the capacity. -/
theorem emit_capacity_bound_witness :
    (ParticleSystem.mk [mkParticle pDemo] 1).emit pDemo = ParticleSystem.mk [mkParticle pDemo] 1 ∧
    (runOps (ParticleSystem.init 1) [PSOp.emit pDemo, PSOp.emit pDemo]).activeParticleCount ≤ 1 :=
  ⟨emit_capacity_bound.1 (ParticleSystem.mk [mkParticle pDemo] 1) pDemo (by rfl),
   emit_capacity_bound.2 1 [PSOp.emit pDemo, PSOp.emit pDemo]⟩

theorem updateParticle_lifetime (dt : ℚ) (p : Particle) :
    (updateParticle dt p).lifetime = p.lifetime := rfl

theorem updateParticle_age (dt : ℚ) (p : Particle) :
    (updateParticle dt p).age = p.age + dt := rfl

theorem update_empty (M : ℕ) (d : ℚ) :
    ParticleSystem.update (ParticleSystem.mk [] M) d = ParticleSystem.mk [] M := by
  simp [ParticleSystem.update]

theorem updateN_succ (ps : ParticleSystem) (dt : ℚ) (n : ℕ) :
    ps.updateN dt (n + 1) = (ps.update dt).updateN dt n := rfl

theorem updateN_empty (M : ℕ) (dt : ℚ) :
    ∀ n, (ParticleSystem.updateN (ParticleSystem.mk [] M) dt n).particles = [] := by
  intro n
  induction n with
  | zero => rfl
  | succ k ih =>
      rw [updateN_succ, update_empty]
      exact ih

theorem update_single (M : ℕ) (dt : ℚ) (hdt : 0 < dt) (p : Particle) :
    ParticleSystem.update (ParticleSystem.mk [p] M) dt =
      if (p.age + dt) < p.lifetime then ParticleSystem.mk [updateParticle dt p] M
      else ParticleSystem.mk [] M := by
  have hmax : max 0 dt = dt := max_eq_right (le_of_lt hdt)
  by_cases h : (p.age + dt) < p.lifetime
  · simp [ParticleSystem.update, kParallelThreshold, hmax, List.filter, updateParticle_age,
      updateParticle_lifetime, h]
  · simp [ParticleSystem.update, kParallelThreshold, hmax, List.filter, updateParticle_age,
      updateParticle_lifetime, h]

theorem updateN_single (M : ℕ) (dt : ℚ) (hdt : 0 < dt) :
    ∀ (n : ℕ) (p : Particle),
      (ParticleSystem.updateN (ParticleSystem.mk [p] M) dt n).particles = [] ∨
      ∃ q, (ParticleSystem.updateN (ParticleSystem.mk [p] M) dt n).particles = [q] ∧
        q.age = p.age + n * dt ∧ q.lifetime = p.lifetime ∧ (n = 0 ∨ q.age < q.lifetime) := by
  intro n
  induction n with
  | zero =>
      intro p
      right
      exact ⟨p, rfl, by ring, rfl, Or.inl rfl⟩
  | succ k ih =>
      intro p
      rw [updateN_succ, update_single M dt hdt p]
      by_cases h : (p.age + dt) < p.lifetime
      · rw [if_pos h]
        rcases ih (updateParticle dt p) with hemp | ⟨q, hq, hage, hlife, hlt⟩
        · exact Or.inl hemp
        · right
          refine ⟨q, hq, ?_, ?_, ?_⟩
          · rw [hage, updateParticle_age]; push_cast; ring
          · rw [hlife, updateParticle_lifetime]
          · rcases hlt with h0 | hlt
            · right
              subst h0
              rw [hage, updateParticle_age, hlife, updateParticle_lifetime]
              simpa using h
            · exact Or.inr hlt
      · rw [if_neg h]
        exact Or.inl (updateN_empty M dt k)

/-- Claim C10: every particle accepted by emit stores lifetime
max(0.01, requested lifetime), hence a strictly positive lifetime even for a
zero or negative request, so the normalized age used in update is
well-defined; and for every strictly positive fixed frame delta the particle
is removed from the pool after finitely many updates. -/
theorem emit_lifetime_positive_finite_removal :
    ∀ (params : SpawnParams) (M : ℕ) (dt : ℚ), 0 < dt →
      ((mkParticle params).lifetime = max (1/100) params.lifetime ∧
        0 < (mkParticle params).lifetime) ∧
      ∃ n, (ParticleSystem.updateN (ParticleSystem.mk [mkParticle params] M) dt n).particles = [] := by
  intro params M dt hdt
  constructor
  · refine ⟨rfl, lt_of_lt_of_le (by norm_num) (le_max_left _ _)⟩
  · set p := mkParticle params with hp
    obtain ⟨n, hn⟩ := exists_nat_ge (p.lifetime / dt)
    refine ⟨n + 1, ?_⟩
    have hge : p.lifetime ≤ (n + 1 : ℕ) * dt := by
      rw [div_le_iff hdt] at hn
      have : (n : ℚ) * dt ≤ (n + 1 : ℕ) * dt := by
        push_cast
        nlinarith
      linarith
    rcases updateN_single M dt hdt (n + 1) p with hemp | ⟨q, hq, hage, hlife, hlt⟩
    · exact hemp
    · exfalso
      rcases hlt with h0 | hlt
      · omega
      · have hage0 : p.age = 0 := rfl
        rw [hage, hage0, hlife, zero_add] at hlt
        exact absurd hge (not_le.mpr hlt)

/-- Witness for claim C10: at frame delta 1 the demo particle has lifetime
max(0.01, 1) = 1 > 0 and vanishes after finitely many updates. -/
theorem emit_lifetime_positive_finite_removal_witness :
    0 < (1 : ℚ) ∧
    (((mkParticle pDemo).lifetime = max (1/100) pDemo.lifetime ∧
        0 < (mkParticle pDemo).lifetime) ∧
      ∃ n, (ParticleSystem.updateN (ParticleSystem.mk [mkParticle pDemo] 5) 1 n).particles = []) :=
  ⟨by norm_num, emit_lifetime_positive_finite_removal pDemo 5 1 (by norm_num)⟩

/-! ## Lantern spawning (App::spawnLantern, App.cpp lines 1301-1377) -/

/-- One pooled lantern, mirroring the fields of LanternInstance that
App::spawnLantern writes. -/
structure LanternInstance where
  active : Bool
  age : ℚ
  speed : ℚ
  duration : ℚ
  p0 : Vec3
  p1 : Vec3
  p2 : Vec3
  p3 : Vec3
deriving DecidableEq, Repr

/-- The configuration fields read by App::spawnLantern. -/
structure LanternConfig where
  spawnCenter : Vec3
  targetHeightMin : ℚ
  targetHeightMax : ℚ
deriving DecidableEq, Repr

/-- The thirteen randomFloat results drawn by App::spawnLantern, in call
order; each is modelled as an arbitrary rational so that the theorem covers
every outcome of the random draws. -/
structure LanternDraws where
  speed : ℚ
  duration : ℚ
  offX : ℚ
  offZ : ℚ
  heightJitter : ℚ
  p3dx : ℚ
  p3dz : ℚ
  p1h : ℚ
  p1dx : ℚ
  p1dz : ℚ
  p2h : ℚ
  p2dx : ℚ
  p2dz : ℚ
deriving DecidableEq, Repr

/-- App::spawnLantern on a free slot: activate it, draw speed, duration and
control points, clamp the target height difference into the configured band,
and finally run the sequential constraint-repair pass that raises each
control point lying below its predecessor to the predecessor height plus the
fixed epsilon 100. -/
def spawnLantern (cfg : LanternConfig) (d : LanternDraws) : LanternInstance :=
  let p0base := vadd cfg.spawnCenter ⟨d.offX, 0, d.offZ⟩
  let p0 : Vec3 := ⟨p0base.x, 0, p0base.z⟩
  let baseHeightDiff := d.speed * d.duration
  let heightDiff := clampQ (baseHeightDiff + d.heightJitter) cfg.targetHeightMin cfg.targetHeightMax
  let p3 := vadd p0 ⟨d.p3dx, heightDiff, d.p3dz⟩
  let p1Height := p0.y + d.p1h
  let p1 := vadd p0 ⟨d.p1dx, p1Height - p0.y, d.p1dz⟩
  let p2Height := p0.y + d.p2h
  let p2 := vadd p0 ⟨d.p2dx, p2Height - p0.y, d.p2dz⟩
  let p1r := if p1.y < p0.y then Vec3.mk p1.x (p0.y + 100) p1.z else p1
  let p2r := if p2.y < p1r.y then Vec3.mk p2.x (p1r.y + 100) p2.z else p2
  let p3r := if p3.y < p2r.y then Vec3.mk p3.x (p2r.y + 100) p3.z else p3
  { active := true
    age := 0
    speed := d.speed
    duration := d.duration
    p0 := p0
    p1 := p1r
    p2 := p2r
    p3 := p3r }

/-- Claim C5: every LanternInstance returned by spawnLantern is active and
its control point heights satisfy p0.y <= p1.y <= p2.y <= p3.y, for every
configuration and every outcome of the thirteen random draws: the sequential
constraint-repair pass raises any control point below its predecessor to the
predecessor height plus the fixed epsilon. -/
theorem spawnLantern_monotone_heights (cfg : LanternConfig) (d : LanternDraws) :
    (spawnLantern cfg d).active = true ∧
    (spawnLantern cfg d).p0.y ≤ (spawnLantern cfg d).p1.y ∧
    (spawnLantern cfg d).p1.y ≤ (spawnLantern cfg d).p2.y ∧
    (spawnLantern cfg d).p2.y ≤ (spawnLantern cfg d).p3.y := by
  unfold spawnLantern
  refine ⟨rfl, ?_⟩
  dsimp only [vadd]
  split <;> split <;> split <;>
    refine ⟨?_, ?_, ?_⟩ <;> (try dsimp only at *) <;> linarith

/-! ## Camera choreography (App::updateCameraMotion, App.cpp lines 1393-1633) -/

/-- An authored camera keyframe: position, yaw and pitch
(AppConfig::CameraKeyframe). -/
structure CamKeyframe where
  position : Vec3
  yaw : ℚ
  pitch : ℚ
deriving DecidableEq, Repr

/-- A full camera pose as written by updateCameraMotion: position, yaw,
pitch and field of view. -/
structure CamPose where
  position : Vec3
  yaw : ℚ
  pitch : ℚ
  fov : ℚ
deriving DecidableEq, Repr

/-- AppConfig::cameraKeyframes, the six authored keyframes. -/
def cameraKeyframes : ℕ → CamKeyframe
  | 0 => ⟨⟨40.3, 1731.3, 6482.7⟩, -91.4, -25.6⟩
  | 1 => ⟨⟨-189.2, 155.6, 5171.6⟩, -93.0, 2.6⟩
  | 2 => ⟨⟨-241.2, 142.7, 3635.2⟩, -121.2, 5.5⟩
  | 3 => ⟨⟨-106.8, 148.5, 2867.0⟩, -44.2, 4.3⟩
  | 4 => ⟨⟨37.3, 78.0, 1148.3⟩, -100.6, 14.4⟩
  | _ => ⟨⟨-13.2, 152.4, 398.7⟩, -102.2, 33.7⟩

/-- AppConfig::cameraTransitionTimes, the five per-segment durations. -/
def cameraTransitionTimes : ℕ → ℚ
  | 0 => 5
  | 1 => 2
  | 2 => 5
  | 3 => 3
  | 4 => 8
  | _ => 0

/-- AppConfig::defaultFOV. -/
def defaultFOV : ℚ := 45

/-- AppConfig::finalFOV. -/
def finalFOV : ℚ := 75

/-- The cumulative keyframe times computed at the top of updateCameraMotion
(lines 1401-1407): keyframeTimes[0] = 0 and
keyframeTimes[i+1] = keyframeTimes[i] + cameraTransitionTimes[i]. -/
def keyframeTimes : ℕ → ℚ
  | 0 => 0
  | n + 1 => keyframeTimes n + cameraTransitionTimes n

/-- The loop while (yaw > 180) yaw -= 360 used to normalize yaw angles. -/
def wrapDown (y : ℚ) : ℚ :=
  if h : 180 < y then wrapDown (y - 360) else y
termination_by (⌈y - 180⌉).toNat
decreasing_by
  have h1 : (0 : ℚ) < y - 180 := by linarith
  have h2 : (1 : ℤ) ≤ ⌈y - 180⌉ := Int.ceil_pos.mpr h1
  have h3 : ⌈y - 360 - 180⌉ = ⌈y - 180⌉ - 360 := by
    rw [show y - 360 - 180 = (y - 180) + ((-360 : ℤ) : ℚ) by push_cast; ring, Int.ceil_add_int]
    ring
  omega

/-- The loop while (yaw < -180) yaw += 360 used to normalize yaw angles. -/
def wrapUp (y : ℚ) : ℚ :=
  if h : y < -180 then wrapUp (y + 360) else y
termination_by (⌈-180 - y⌉).toNat
decreasing_by
  have h1 : (0 : ℚ) < -180 - y := by linarith
  have h2 : (1 : ℤ) ≤ ⌈-180 - y⌉ := Int.ceil_pos.mpr h1
  have h3 : ⌈-180 - (y + 360)⌉ = ⌈-180 - y⌉ - 360 := by
    rw [show -180 - (y + 360) = (-180 - y) + ((-360 : ℤ) : ℚ) by push_cast; ring, Int.ceil_add_int]
    ring
  omega

/-- The two wrap loops run in sequence on one yaw variable
(App.cpp lines 1460-1463 and 1580-1583). -/
def normalizeYaw (y : ℚ) : ℚ := wrapUp (wrapDown y)

/-- The single shortest-path correction applied to the difference of two
normalized yaws (App.cpp lines 1466-1474 and 1586-1594). -/
def yawShortestDiff (y0 y1 : ℚ) : ℚ :=
  let d := y1 - y0
  if 180 < d then d - 360 else if d < -180 then d + 360 else d

theorem wrapDown_of_le {y : ℚ} (h : y ≤ 180) : wrapDown y = y := by
  rw [wrapDown, dif_neg (not_lt.mpr h)]

theorem wrapUp_of_ge {y : ℚ} (h : -180 ≤ y) : wrapUp y = y := by
  rw [wrapUp, dif_neg (not_lt.mpr h)]

theorem wrapDown_le (y : ℚ) : wrapDown y ≤ 180 := by
  induction y using wrapDown.induct with
  | case1 y h ih => rwa [wrapDown, dif_pos h]
  | case2 y h => rw [wrapDown, dif_neg h]; exact le_of_not_lt h

theorem wrapUp_ge (y : ℚ) : -180 ≤ wrapUp y := by
  induction y using wrapUp.induct with
  | case1 y h ih => rwa [wrapUp, dif_pos h]
  | case2 y h => rw [wrapUp, dif_neg h]; exact le_of_not_lt h

theorem wrapUp_le {y : ℚ} (h : y ≤ 180) : wrapUp y ≤ 180 := by
  induction y using wrapUp.induct with
  | case1 y hy ih =>
      rw [wrapUp, dif_pos hy]
      exact ih (by linarith)
  | case2 y hy => rwa [wrapUp, dif_neg hy]

theorem normalizeYaw_of_mem {y : ℚ} (h0 : -180 ≤ y) (h1 : y ≤ 180) : normalizeYaw y = y := by
  rw [normalizeYaw, wrapDown_of_le h1, wrapUp_of_ge h0]

theorem normalizeYaw_mem (y : ℚ) : -180 ≤ normalizeYaw y ∧ normalizeYaw y ≤ 180 :=
  ⟨wrapUp_ge _, wrapUp_le (wrapDown_le y)⟩

/-- The smoothstep segment interpolation body of updateCameraMotion
(lines 1446-1489): position by glm::mix, yaw by shortest-path difference of
the normalized endpoint yaws scaled by the smoothstep parameter, pitch by
glm::mix, field of view held at the default. -/
def segmentPose (kf0 kf1 : CamKeyframe) (t : ℚ) : CamPose :=
  let smoothT := smoothstep t
  let y0 := normalizeYaw kf0.yaw
  let y1 := normalizeYaw kf1.yaw
  let yd := yawShortestDiff y0 y1
  { position := mixV kf0.position kf1.position smoothT
    yaw := y0 + yd * smoothT
    pitch := mixQ kf0.pitch kf1.pitch smoothT
    fov := defaultFOV }

/-- The segment-selection loop of updateCameraMotion (lines 1415-1427): scan
i = 0..3, return i as soon as totalTime lies inside [times[i], times[i+1]],
otherwise remember i+1 whenever totalTime has passed times[i+1]. -/
def findSegmentGo (t : ℚ) : List ℕ → ℕ → ℕ
  | [], cur => cur
  | i :: rest, cur =>
      if keyframeTimes i ≤ t ∧ t ≤ keyframeTimes (i + 1) then i
      else if keyframeTimes (i + 1) < t then findSegmentGo t rest (i + 1)
      else findSegmentGo t rest cur

/-- The segment index chosen for a given total time. -/
def currentSegment (t : ℚ) : ℕ := findSegmentGo t [0, 1, 2, 3] 0

/-- Phase 1 of updateCameraMotion (lines 1412-1490), the scripted camera
pose for totalTime below keyframeTimes[4]: select the segment, compute the
clamped local parameter from the segment bounds, and interpolate. -/
def scriptedPose (totalTime : ℚ) : CamPose :=
  let seg := currentSegment totalTime
  let segStart := keyframeTimes seg
  let segEnd := keyframeTimes (seg + 1)
  let dur := segEnd - segStart
  let t := if 0 < dur then clampQ ((totalTime - segStart) / dur) 0 1 else 0
  segmentPose (cameraKeyframes seg) (cameraKeyframes (seg + 1)) t

/-- Phase 4 of updateCameraMotion (lines 1538-1626), the resume motion after
the airplane disappears: below the 0.001 s threshold replay the recorded
pose, otherwise interpolate from the recorded pose toward keyframe 5 with
the smoothstep of the clamped normalized time, overriding with keyframe 5
and the final field of view once the parameter reaches 1. -/
def resumePose (recordedPos : Vec3) (recordedYaw recordedPitch : ℚ)
    (disappearTime totalTime : ℚ) : CamPose :=
  let timeSince := totalTime - disappearTime
  if timeSince < 1/1000 then
    { position := recordedPos, yaw := recordedYaw, pitch := recordedPitch, fov := defaultFOV }
  else
    let dur := cameraTransitionTimes 4
    let t := if 0 < dur then clampQ (timeSince / dur) 0 1 else 0
    let s := smoothstep t
    let kf5 := cameraKeyframes 5
    let y0 := normalizeYaw recordedYaw
    let y5 := normalizeYaw kf5.yaw
    let yd := yawShortestDiff y0 y5
    if 1 ≤ t then
      { position := kf5.position, yaw := kf5.yaw, pitch := kf5.pitch, fov := finalFOV }
    else
      { position := mixV recordedPos kf5.position s
        yaw := y0 + yd * s
        pitch := mixQ recordedPitch kf5.pitch s
        fov := mixQ defaultFOV finalFOV s }

theorem scriptedPose_seven :
    scriptedPose 7 = { position := ⟨-241.2, 142.7, 3635.2⟩, yaw := -121.2, pitch := 5.5, fov := 45 } := by
  norm_num [scriptedPose, currentSegment, findSegmentGo, keyframeTimes, cameraTransitionTimes,
    segmentPose, cameraKeyframes, smoothstep, mixQ, mixV, clampQ, yawShortestDiff, defaultFOV,
    normalizeYaw_of_mem]

theorem scriptedPose_twelve :
    scriptedPose 12 = { position := ⟨-106.8, 148.5, 2867.0⟩, yaw := -44.2, pitch := 4.3, fov := 45 } := by
  norm_num [scriptedPose, currentSegment, findSegmentGo, keyframeTimes, cameraTransitionTimes,
    segmentPose, cameraKeyframes, smoothstep, mixQ, mixV, clampQ, yawShortestDiff, defaultFOV,
    normalizeYaw_of_mem]

/-- Modelled from the spec wording of claim C1: a pose lies strictly between
two keyframes when its position is the linear interpolation of the two
keyframe positions at some interior parameter. This definition follows the
claim text, not the code, and is used only to state claim C1 as written. -/
def specStrictlyBetween (a b : CamKeyframe) (p : CamPose) : Prop :=
  ∃ s : ℚ, 0 < s ∧ s < 1 ∧ p.position = mixV a.position b.position s

/-- Claim C1, counterexample: with the configured transition times the
scripted camera update at totalTime 7.0 lands on segment 1 with local
parameter exactly 1, so the resulting pose is exactly keyframe 2, not
strictly between keyframe 1 and keyframe 2 as the claim states. -/
theorem scripted_pose_at_7_not_strictly_between :
    (scriptedPose 7).position = (cameraKeyframes 2).position ∧
    ¬ specStrictlyBetween (cameraKeyframes 1) (cameraKeyframes 2) (scriptedPose 7) := by
  constructor
  · rw [scriptedPose_seven]; norm_num [cameraKeyframes]
  · rintro ⟨s, hs0, hs1, hpos⟩
    rw [scriptedPose_seven] at hpos
    have hz := congrArg Vec3.z hpos
    simp only [mixV, mixQ, cameraKeyframes] at hz
    have hs : s = 1 := by linarith [hz]
    exact absurd hs (ne_of_lt hs1)

/-- Claim C1 (amended): with the keyframe transition times 5, 2, 5, 3, 8 the
scripted camera update at totalTime 7.0 produces exactly keyframe 2's
position, yaw and pitch (the boundary time belongs to segment 1 at local
parameter 1), and at totalTime 12.0 exactly keyframe 3's. -/
theorem scripted_pose_boundary_times :
    (scriptedPose 7).position = (cameraKeyframes 2).position ∧
    (scriptedPose 7).yaw = (cameraKeyframes 2).yaw ∧
    (scriptedPose 7).pitch = (cameraKeyframes 2).pitch ∧
    (scriptedPose 12).position = (cameraKeyframes 3).position ∧
    (scriptedPose 12).yaw = (cameraKeyframes 3).yaw ∧
    (scriptedPose 12).pitch = (cameraKeyframes 3).pitch := by
  rw [scriptedPose_seven, scriptedPose_twelve]
  norm_num [cameraKeyframes]

/-- Claim C2: on every scripted segment the interpolation at local parameter
0 reproduces the starting keyframe's position, yaw and pitch exactly, at
local parameter 1 the ending keyframe's exactly, and for arbitrary yaw
values the difference of the normalized yaws after the single shortest-path
correction always lies within [-180, 180] before being scaled by the
smoothstep parameter. -/
theorem segment_endpoints_exact_and_shortest_yaw :
    (∀ i : Fin 4,
      segmentPose (cameraKeyframes i.val) (cameraKeyframes (i.val + 1)) 0 =
        CamPose.mk (cameraKeyframes i.val).position (cameraKeyframes i.val).yaw
          (cameraKeyframes i.val).pitch defaultFOV ∧
      segmentPose (cameraKeyframes i.val) (cameraKeyframes (i.val + 1)) 1 =
        CamPose.mk (cameraKeyframes (i.val + 1)).position (cameraKeyframes (i.val + 1)).yaw
          (cameraKeyframes (i.val + 1)).pitch defaultFOV) ∧
    (∀ y0 y1 : ℚ,
      -180 ≤ yawShortestDiff (normalizeYaw y0) (normalizeYaw y1) ∧
      yawShortestDiff (normalizeYaw y0) (normalizeYaw y1) ≤ 180) := by
  constructor
  · intro i
    fin_cases i <;>
      constructor <;>
        norm_num [segmentPose, cameraKeyframes, smoothstep, mixQ, mixV, yawShortestDiff,
          normalizeYaw_of_mem, defaultFOV]
  · intro y0 y1
    obtain ⟨a0, b0⟩ := normalizeYaw_mem y0
    obtain ⟨a1, b1⟩ := normalizeYaw_mem y1
    simp only [yawShortestDiff]
    by_cases h1 : 180 < normalizeYaw y1 - normalizeYaw y0
    · rw [if_pos h1]; constructor <;> linarith
    · rw [if_neg h1]
      by_cases h2 : normalizeYaw y1 - normalizeYaw y0 < -180
      · rw [if_pos h2]; constructor <;> linarith
      · rw [if_neg h2]; constructor <;> linarith

/-- Claim C3, evaluation of the code at the failing input: the camera update
runs before the airplane update in the frame loop, so the first resume-phase
frame after the airplane disappears sees timeSince equal to one whole frame
delta; at 60 FPS that is 1/60 s, which fails the 0.001 s replay threshold,
and the camera is moved off the recorded pose toward keyframe 5 instead of
replaying the recorded pose exactly as the claim and the code's own
comments require. -/
theorem resume_first_frame_moves_camera :
    ¬ ((1 : ℚ)/60 < 1/1000) ∧
    (resumePose (cameraKeyframes 4).position (-90) (-20) 31 (31 + 1/60)).position ≠
      (cameraKeyframes 4).position := by
  constructor
  · norm_num
  · norm_num [resumePose, cameraKeyframes, cameraTransitionTimes, smoothstep, clampQ,
      mixV, mixQ, normalizeYaw_of_mem, yawShortestDiff, defaultFOV, finalFOV, Vec3.mk.injEq]

/-! ## Missile lifecycle (App::updateMissileAnimation, App.cpp lines 974-1102) -/

/-- The missile state fields written by App::updateMissileAnimation. -/
structure MissileState where
  hasSpawned : Bool
  active : Bool
  exploded : Bool
  position : Vec3
  velocity : Vec3
  rotationAngle : ℚ
  explosionTime : ℚ
  explosionPosition : Vec3
deriving DecidableEq, Repr

/-- The configuration fields read by App::updateMissileAnimation; the cosine
and sine of the configured fall angle are carried as values since the
rational embedding keeps the trigonometric primitives abstract (claim C9
treats them exactly over the reals). -/
structure MissileConfig where
  dropTime : ℚ
  fallSpeed : ℚ
  cosFallAngle : ℚ
  sinFallAngle : ℚ
  groundHeight : ℚ
  rotationSpeed : ℚ
deriving DecidableEq, Repr

/-- The per-frame inputs of App::updateMissileAnimation: total time, frame
delta and the airplane observations used by the spawn condition. -/
structure FrameInput where
  totalTime : ℚ
  dt : ℚ
  airplaneHasSpawned : Bool
  airplaneActive : Bool
  airplaneSpawnTime : ℚ
  airplanePos : Vec3
  airplaneDir : Vec3
deriving DecidableEq, Repr

/-- The loop while (angle >= 360) angle -= 360 (App.cpp lines 1017-1020). -/
def wrap360 (a : ℚ) : ℚ :=
  if h : 360 ≤ a then wrap360 (a - 360) else a
termination_by (⌈a⌉).toNat
decreasing_by
  have h1 : (360 : ℤ) ≤ ⌈a⌉ := by exact_mod_cast Int.le_ceil_iff.mpr (by push_cast; linarith)
  have h2 : ⌈a - 360⌉ = ⌈a⌉ - 360 := by
    rw [show a - 360 = a + ((-360 : ℤ) : ℚ) by push_cast; ring, Int.ceil_add_int]
    ring
  omega

/-- The spawn velocity decomposition (App.cpp lines 988-996): horizontal
speed along the normalized airplane direction plus a downward vertical
component. -/
def missileSpawnVelocity (cfg : MissileConfig) (dir : Vec3) : Vec3 :=
  let horizontalSpeed := cfg.fallSpeed * cfg.cosFallAngle
  let verticalSpeed := -(cfg.fallSpeed * cfg.sinFallAngle)
  vadd (vsmul horizontalSpeed dir) ⟨0, verticalSpeed, 0⟩

/-- One call of App::updateMissileAnimation: spawn once when the airplane
has been active for the configured drop time, then while active integrate
position and spin, and on the first frame with position.y at or below the
configured ground height deactivate, set the exploded flag and record the
explosion time and the explosion position clamped to the ground height. -/
def missileStep (cfg : MissileConfig) (fi : FrameInput) (m : MissileState) : MissileState :=
  let m1 :=
    if m.hasSpawned = false ∧ fi.airplaneHasSpawned = true ∧ fi.airplaneActive = true ∧
        cfg.dropTime ≤ fi.totalTime - fi.airplaneSpawnTime then
      { m with
        hasSpawned := true
        active := true
        position := fi.airplanePos
        velocity := missileSpawnVelocity cfg fi.airplaneDir
        rotationAngle := 0 }
    else m
  if m1.active = false then m1
  else
    let p := vadd m1.position (vsmul fi.dt m1.velocity)
    let rot := wrap360 (m1.rotationAngle + cfg.rotationSpeed * fi.dt)
    if p.y ≤ cfg.groundHeight then
      { m1 with
        active := false
        exploded := true
        position := p
        rotationAngle := rot
        explosionTime := fi.totalTime
        explosionPosition := ⟨p.x, cfg.groundHeight, p.z⟩ }
    else
      { m1 with
        position := p
        rotationAngle := rot }

/-- The explosion trigger fires during a step exactly when the exploded flag
flips from false to true. -/
def missileFiresB (cfg : MissileConfig) (fi : FrameInput) (m : MissileState) : Bool :=
  decide ((missileStep cfg fi m).exploded = true ∧ m.exploded = false)

/-- The number of frames of a run in which the explosion trigger fires. -/
def countFires (cfg : MissileConfig) (m : MissileState) : List FrameInput → ℕ
  | [] => 0
  | fi :: rest =>
      (if missileFiresB cfg fi m then 1 else 0) + countFires cfg (missileStep cfg fi m) rest

/-- The index of the frame on which the explosion trigger fires, if any. -/
def fireIndex (cfg : MissileConfig) (m : MissileState) : List FrameInput → Option ℕ
  | [] => none
  | fi :: rest =>
      if missileFiresB cfg fi m then some 0
      else (fireIndex cfg (missileStep cfg fi m) rest).map (· + 1)

/-- The free-fall height after integrating the first k frame deltas with the
missile's current constant velocity. -/
def freeHeight (m : MissileState) (fis : List FrameInput) (k : ℕ) : ℚ :=
  m.position.y + m.velocity.y * ((fis.take k).map FrameInput.dt).sum

theorem missileStep_exploded_mono (cfg : MissileConfig) (fi : FrameInput) (m : MissileState)
    (h : m.exploded = true) : (missileStep cfg fi m).exploded = true := by
  simp only [missileStep]
  split_ifs <;> simp_all

theorem countFires_of_exploded (cfg : MissileConfig) :
    ∀ (fis : List FrameInput) (m : MissileState), m.exploded = true → countFires cfg m fis = 0 := by
  intro fis
  induction fis with
  | nil => intro m _; rfl
  | cons fi rest ih =>
      intro m h
      have hb : missileFiresB cfg fi m = false := by
        simp [missileFiresB, h]
      simp only [countFires, hb, if_neg Bool.false_ne_true]
      rw [ih (missileStep cfg fi m) (missileStep_exploded_mono cfg fi m h)]

theorem countFires_le_one (cfg : MissileConfig) :
    ∀ (fis : List FrameInput) (m : MissileState), countFires cfg m fis ≤ 1 := by
  intro fis
  induction fis with
  | nil => intro m; exact Nat.zero_le 1
  | cons fi rest ih =>
      intro m
      by_cases hb : missileFiresB cfg fi m = true
      · have hexp : (missileStep cfg fi m).exploded = true := by
          have := of_decide_eq_true hb
          exact this.1
        simp only [countFires, hb, if_pos]
        rw [countFires_of_exploded cfg rest _ hexp]
      · simp only [countFires, hb, if_neg]
        simpa using ih (missileStep cfg fi m)

theorem missileStep_of_active (cfg : MissileConfig) (fi : FrameInput) (m : MissileState)
    (hsp : m.hasSpawned = true) (hact : m.active = true) :
    missileStep cfg fi m =
      (let p := vadd m.position (vsmul fi.dt m.velocity)
       let rot := wrap360 (m.rotationAngle + cfg.rotationSpeed * fi.dt)
       if p.y ≤ cfg.groundHeight then
        { m with
          active := false
          exploded := true
          position := p
          rotationAngle := rot
          explosionTime := fi.totalTime
          explosionPosition := ⟨p.x, cfg.groundHeight, p.z⟩ }
       else
        { m with
          position := p
          rotationAngle := rot }) := by
  simp [missileStep, hsp, hact]

theorem missileFires_iff (cfg : MissileConfig) (fi : FrameInput) (m : MissileState)
    (hsp : m.hasSpawned = true) (hact : m.active = true) (hexp : m.exploded = false) :
    missileFiresB cfg fi m = true ↔
      (vadd m.position (vsmul fi.dt m.velocity)).y ≤ cfg.groundHeight := by
  rw [missileFiresB, decide_eq_true_iff, missileStep_of_active cfg fi m hsp hact]
  by_cases h : (vadd m.position (vsmul fi.dt m.velocity)).y ≤ cfg.groundHeight
  · simp [h, hexp]
  · simp [h, hexp]

theorem missileStep_no_fire (cfg : MissileConfig) (fi : FrameInput) (m : MissileState)
    (hsp : m.hasSpawned = true) (hact : m.active = true) (hexp : m.exploded = false)
    (hb : missileFiresB cfg fi m = false) :
    missileStep cfg fi m =
      { m with
        position := vadd m.position (vsmul fi.dt m.velocity)
        rotationAngle := wrap360 (m.rotationAngle + cfg.rotationSpeed * fi.dt) } ∧
    cfg.groundHeight < (vadd m.position (vsmul fi.dt m.velocity)).y := by
  have hgt : ¬ (vadd m.position (vsmul fi.dt m.velocity)).y ≤ cfg.groundHeight := by
    intro hle
    rw [← missileFires_iff cfg fi m hsp hact hexp] at hle
    exact absurd hle (by simp [hb])
  constructor
  · rw [missileStep_of_active cfg fi m hsp hact]
    simp [hgt]
  · exact lt_of_not_le hgt

theorem missileStep_fire_effects (cfg : MissileConfig) (fi : FrameInput) (m : MissileState)
    (hsp : m.hasSpawned = true) (hact : m.active = true)
    (hb : missileFiresB cfg fi m = true) :
    missileStep cfg fi m =
      { m with
        active := false
        exploded := true
        position := vadd m.position (vsmul fi.dt m.velocity)
        rotationAngle := wrap360 (m.rotationAngle + cfg.rotationSpeed * fi.dt)
        explosionTime := fi.totalTime
        explosionPosition := ⟨(vadd m.position (vsmul fi.dt m.velocity)).x, cfg.groundHeight,
          (vadd m.position (vsmul fi.dt m.velocity)).z⟩ } := by
  have hle : (vadd m.position (vsmul fi.dt m.velocity)).y ≤ cfg.groundHeight := by
    have h1 := of_decide_eq_true hb
    rw [missileStep_of_active cfg fi m hsp hact] at h1
    by_contra hgt
    simp [hgt] at h1
  rw [missileStep_of_active cfg fi m hsp hact]
  simp [hle]

theorem freeHeight_shift (cfg : MissileConfig) (fi : FrameInput) (rest : List FrameInput)
    (m : MissileState) (hsp : m.hasSpawned = true) (hact : m.active = true)
    (hexp : m.exploded = false) (hb : missileFiresB cfg fi m = false) (k : ℕ) :
    freeHeight (missileStep cfg fi m) rest k = freeHeight m (fi :: rest) (k + 1) := by
  obtain ⟨hstep, -⟩ := missileStep_no_fire cfg fi m hsp hact hexp hb
  rw [hstep]
  simp only [freeHeight, List.take_succ_cons, List.map_cons, List.sum_cons, vadd, vsmul]
  ring

theorem fireIndex_spec (cfg : MissileConfig) :
    ∀ (fis : List FrameInput) (m : MissileState),
      m.active = true → m.hasSpawned = true → m.exploded = false →
      ∀ i, (fireIndex cfg m fis = some i ↔
        (i < fis.length ∧ freeHeight m fis (i + 1) ≤ cfg.groundHeight ∧
          ∀ j, j < i → cfg.groundHeight < freeHeight m fis (j + 1))) := by
  intro fis
  induction fis with
  | nil =>
      intro m hact hsp hexp i
      constructor
      · intro h; exact absurd h (by simp [fireIndex])
      · rintro ⟨h, -, -⟩; exact absurd h (by simp)
  | cons fi rest ih =>
      intro m hact hsp hexp i
      have hfh1 : freeHeight m (fi :: rest) 1 = (vadd m.position (vsmul fi.dt m.velocity)).y := by
        simp only [freeHeight, List.take_succ_cons, List.take_zero, List.map_cons, List.map_nil,
          List.sum_cons, List.sum_nil, vadd, vsmul]
        ring
      by_cases hb : missileFiresB cfg fi m = true
      · have hle : (vadd m.position (vsmul fi.dt m.velocity)).y ≤ cfg.groundHeight :=
          (missileFires_iff cfg fi m hsp hact hexp).mp hb
        simp only [fireIndex, hb, if_pos]
        constructor
        · intro h
          have hi : i = 0 := by
            have := Option.some.inj h
            omega
          subst hi
          refine ⟨by simp, by rwa [hfh1], by omega⟩
        · rintro ⟨hlen, hle2, hfirst⟩
          cases i with
          | zero => rfl
          | succ i2 =>
              exact absurd (hfirst 0 (Nat.succ_pos _)) (by rw [hfh1]; exact not_lt.mpr hle)
      · have hbf : missileFiresB cfg fi m = false := by simpa using hb
        obtain ⟨hstep, hgt⟩ := missileStep_no_fire cfg fi m hsp hact hexp hbf
        have h2act : (missileStep cfg fi m).active = true := by rw [hstep]; exact hact
        have h2sp : (missileStep cfg fi m).hasSpawned = true := by rw [hstep]; exact hsp
        have h2exp : (missileStep cfg fi m).exploded = false := by rw [hstep]; exact hexp
        have hIH := ih (missileStep cfg fi m) h2act h2sp h2exp
        have hshift := freeHeight_shift cfg fi rest m hsp hact hexp hbf
        simp only [fireIndex, hb, if_neg, Bool.false_eq_true, not_false_eq_true]
        constructor
        · intro h
          obtain ⟨i2, hi2, hi2i⟩ := Option.map_eq_some'.mp h
          obtain ⟨hlen2, hle2, hfirst2⟩ := (hIH i2).mp hi2
          subst hi2i
          refine ⟨by simp; omega, ?_, ?_⟩
          · rw [← hshift (i2 + 1)] at *
            exact hle2
          · intro j hj
            cases j with
            | zero => rwa [hfh1]
            | succ j2 =>
                rw [← hshift (j2 + 1)]
                exact hfirst2 j2 (by omega)
        · rintro ⟨hlen, hle2, hfirst⟩
          cases i with
          | zero =>
              exfalso
              rw [hfh1] at hle2
              exact absurd hle2 (not_le.mpr hgt)
          | succ i2 =>
              have hsome : fireIndex cfg (missileStep cfg fi m) rest = some i2 := by
                refine (hIH i2).mpr ⟨by simp at hlen; omega, ?_, ?_⟩
                · rw [hshift (i2 + 1)]
                  exact hle2
                · intro j hj
                  rw [hshift (j + 1)]
                  exact hfirst (j + 1) (by omega)
              rw [hsome]
              rfl

theorem missile_y_mono (cfg : MissileConfig) (fi : FrameInput) (m : MissileState)
    (hact : m.active = true) (hsp : m.hasSpawned = true)
    (hv : m.velocity.y ≤ 0) (hdt : 0 ≤ fi.dt) :
    (missileStep cfg fi m).position.y ≤ m.position.y := by
  rw [missileStep_of_active cfg fi m hsp hact]
  have hy : (vadd m.position (vsmul fi.dt m.velocity)).y ≤ m.position.y := by
    simp only [vadd, vsmul]
    nlinarith
  dsimp only
  split <;> simpa using hy

/-- A concrete missile configuration used to instantiate witness theorems:
the shipped drop time, fall speed 700, fall angle cosine and sine near 60
degrees, ground height 6000 and spin rate 180. -/
def cfg0 : MissileConfig := ⟨2, 700, 1/2, 866/1000, 6000, 180⟩

/-- A concrete spawned active missile above the ground used for witnesses. -/
def m0 : MissileState := ⟨true, true, false, ⟨0, 6500, 0⟩, ⟨350, -600, 0⟩, 0, 0, ⟨0, 0, 0⟩⟩

/-- A concrete frame input used for witnesses. -/
def fi0 : FrameInput := ⟨30, 1/60, true, true, 20, ⟨0, 8000, 0⟩, ⟨1, 0, 0⟩⟩

/-- Claim C4: while the missile is active (so spawned) with its downward
spawn velocity, position.y never increases for any non-negative frame delta;
over every run the explosion trigger fires at most once; a step of an
active, unexploded missile fires exactly when the integrated height reaches
the configured ground height, and then deactivates the missile, sets the
exploded flag and records the explosion time and the ground-clamped
explosion position; and the trigger fires at index i of a run precisely when
i is the first frame whose integrated height is at or below the ground. -/
theorem missile_descends_and_explodes_once :
    (∀ (cfg : MissileConfig) (fi : FrameInput) (m : MissileState),
      m.active = true → m.hasSpawned = true → m.velocity.y ≤ 0 → 0 ≤ fi.dt →
        (missileStep cfg fi m).position.y ≤ m.position.y) ∧
    (∀ (cfg : MissileConfig) (m : MissileState) (fis : List FrameInput),
      countFires cfg m fis ≤ 1) ∧
    (∀ (cfg : MissileConfig) (fi : FrameInput) (m : MissileState),
      m.active = true → m.hasSpawned = true → m.exploded = false →
      (missileFiresB cfg fi m = true ↔
        (vadd m.position (vsmul fi.dt m.velocity)).y ≤ cfg.groundHeight) ∧
      (missileFiresB cfg fi m = true →
        (missileStep cfg fi m).active = false ∧
        (missileStep cfg fi m).exploded = true ∧
        (missileStep cfg fi m).explosionTime = fi.totalTime ∧
        (missileStep cfg fi m).explosionPosition =
          Vec3.mk (vadd m.position (vsmul fi.dt m.velocity)).x cfg.groundHeight
            (vadd m.position (vsmul fi.dt m.velocity)).z)) ∧
    (∀ (cfg : MissileConfig) (fis : List FrameInput) (m : MissileState),
      m.active = true → m.hasSpawned = true → m.exploded = false →
      ∀ i, (fireIndex cfg m fis = some i ↔
        (i < fis.length ∧ freeHeight m fis (i + 1) ≤ cfg.groundHeight ∧
          ∀ j, j < i → cfg.groundHeight < freeHeight m fis (j + 1)))) := by
  refine ⟨fun cfg fi m hact hsp hv hdt => missile_y_mono cfg fi m hact hsp hv hdt,
    fun cfg m fis => countFires_le_one cfg fis m, ?_,
    fun cfg fis m hact hsp hexp => fireIndex_spec cfg fis m hact hsp hexp⟩
  intro cfg fi m hact hsp hexp
  refine ⟨missileFires_iff cfg fi m hsp hact hexp, fun hb => ?_⟩
  rw [missileStep_fire_effects cfg fi m hsp hact hb]
  exact ⟨rfl, rfl, rfl, rfl⟩

/-- Witness for claim C4: the concrete spawned missile instantiates each
hypothesized conjunct. -/
theorem missile_descends_and_explodes_once_witness :
    (missileStep cfg0 fi0 m0).position.y ≤ m0.position.y ∧
    countFires cfg0 m0 [fi0] ≤ 1 ∧
    (missileFiresB cfg0 fi0 m0 = true ↔
      (vadd m0.position (vsmul fi0.dt m0.velocity)).y ≤ cfg0.groundHeight) ∧
    (fireIndex cfg0 m0 [fi0] = some 0 ↔
      (0 < [fi0].length ∧ freeHeight m0 [fi0] (0 + 1) ≤ cfg0.groundHeight ∧
        ∀ j, j < 0 → cfg0.groundHeight < freeHeight m0 [fi0] (j + 1))) :=
  ⟨missile_descends_and_explodes_once.1 cfg0 fi0 m0 rfl rfl (by norm_num [m0]) (by norm_num [fi0]),
   missile_descends_and_explodes_once.2.1 cfg0 m0 [fi0],
   (missile_descends_and_explodes_once.2.2.1 cfg0 fi0 m0 rfl rfl rfl).1,
   missile_descends_and_explodes_once.2.2.2 cfg0 [fi0] m0 rfl rfl rfl 0⟩

/-- glm::radians over the reals. -/
noncomputable def radiansR (deg : ℝ) : ℝ := deg * Real.pi / 180

/-- The horizontal speed computed at missile spawn
(App.cpp line 990): fallSpeed times the cosine of the fall angle. -/
noncomputable def missileHorizontalSpeedR (fallSpeed fallAngle : ℝ) : ℝ :=
  fallSpeed * Real.cos (radiansR fallAngle)

/-- The vertical velocity computed at missile spawn
(App.cpp line 991): minus fallSpeed times the sine of the fall angle. -/
noncomputable def missileVerticalSpeedR (fallSpeed fallAngle : ℝ) : ℝ :=
  -(fallSpeed * Real.sin (radiansR fallAngle))

/-- Claim C9, counterexample: for fallSpeed 700 and fallAngle 60 degrees the
horizontal speed is exactly 350 but the vertical velocity is minus 350 times
the square root of 3, about -606.218, which differs from -606.2 by about
0.0178: more than the claimed 1e-3 tolerance. -/
theorem missile_vertical_speed_outside_tolerance :
    missileHorizontalSpeedR 700 60 = 350 ∧
    missileVerticalSpeedR 700 60 = -(350 * Real.sqrt 3) ∧
    1/1000 < |missileVerticalSpeedR 700 60 - (-606.2)| := by
  have hrad : radiansR 60 = Real.pi / 3 := by
    unfold radiansR
    ring
  have hh : missileHorizontalSpeedR 700 60 = 350 := by
    unfold missileHorizontalSpeedR
    rw [hrad, Real.cos_pi_div_three]
    norm_num
  have hv : missileVerticalSpeedR 700 60 = -(350 * Real.sqrt 3) := by
    unfold missileVerticalSpeedR
    rw [hrad, Real.sin_pi_div_three]
    ring
  have hs : Real.sqrt 3 ^ 2 = 3 := Real.sq_sqrt (by norm_num)
  have hpos : (0 : ℝ) ≤ Real.sqrt 3 := Real.sqrt_nonneg 3
  have hlow : (606201/350000 : ℝ) < Real.sqrt 3 := by nlinarith [hs, hpos]
  refine ⟨hh, hv, ?_⟩
  rw [hv]
  rw [abs_of_neg (by nlinarith)]
  nlinarith

/-- Claim C9 (amended): at fallSpeed 700 and fallAngle 60 degrees the
horizontal speed is exactly 350 and the vertical velocity is exactly
-350 times the square root of 3, about -606.218, within 2e-2 of -606.2
rather than within 1e-3. -/
theorem missile_velocity_decomposition_exact :
    missileHorizontalSpeedR 700 60 = 350 ∧
    missileVerticalSpeedR 700 60 = -(350 * Real.sqrt 3) ∧
    |missileVerticalSpeedR 700 60 - (-606.2)| < 2/100 := by
  have hrad : radiansR 60 = Real.pi / 3 := by
    unfold radiansR
    ring
  have hh : missileHorizontalSpeedR 700 60 = 350 := by
    unfold missileHorizontalSpeedR
    rw [hrad, Real.cos_pi_div_three]
    norm_num
  have hv : missileVerticalSpeedR 700 60 = -(350 * Real.sqrt 3) := by
    unfold missileVerticalSpeedR
    rw [hrad, Real.sin_pi_div_three]
    ring
  have hs : Real.sqrt 3 ^ 2 = 3 := Real.sq_sqrt (by norm_num)
  have hpos : (0 : ℝ) ≤ Real.sqrt 3 := Real.sqrt_nonneg 3
  have hlow : (606201/350000 : ℝ) < Real.sqrt 3 := by nlinarith [hs, hpos]
  have hhigh : Real.sqrt 3 < (606220/350000 : ℝ) := by nlinarith [hs, hpos]
  refine ⟨hh, hv, ?_⟩
  rw [hv]
  rw [abs_of_neg (by nlinarith)]
  nlinarith

/-! ## Flag surface evaluator (FlagGenerator::updateFlagVertices,
FlagGenerator.cpp lines 195-338) -/

/-- A 2-component vector for texture coordinates, mirroring glm vec2. -/
structure Vec2 where
  x : ℚ
  y : ℚ
deriving DecidableEq, Repr

/-- One flag mesh vertex as written by updateFlagVertices. -/
structure FlagVertex where
  position : Vec3
  normal : Vec3
  uv : Vec2
  color : Vec3
deriving DecidableEq, Repr

/-- The floating-point transcendental primitives used by the evaluator, kept
abstract over the rational carrier: sine, cosine, the float pi constant, and
the combined normalize-with-degenerate-fallback of FlagGenerator.cpp lines
321-325 (which needs a square root). Every primitive is a fixed function, so
the embedded evaluator is a plain function of its arguments. -/
structure FloatTrig where
  sinF : ℚ → ℚ
  cosF : ℚ → ℚ
  piF : ℚ
  normF : Vec3 → Vec3

/-- The iterative binomial coefficient loop of bernsteinBasis
(FlagGenerator.cpp lines 22-26): after k steps the accumulator has been
multiplied by (n - j) / (j + 1) for j = 0 .. k-1. -/
def binomialLoop (n : ℕ) : ℕ → ℚ
  | 0 => 1
  | j + 1 => binomialLoop n j * ((n : ℚ) - j) / (j + 1)

/-- FlagGenerator::bernsteinBasis (lines 16-33). The index arguments are
naturals since every call site passes 0 <= i <= n, so the i < 0 guard of the
source is vacuous here. -/
def bernsteinBasis (n i : ℕ) (t : ℚ) : ℚ :=
  if i > n then 0
  else if n = 0 then 1
  else binomialLoop n i * t ^ i * (1 - t) ^ (n - i)

/-- FlagGenerator::bernsteinBasisDerivative (lines 36-61). -/
def bernsteinBasisDerivative (n i : ℕ) (t : ℚ) : ℚ :=
  if i > n then 0
  else if n = 0 then 0
  else if i = 0 then -(n : ℚ) * (1 - t) ^ (n - 1)
  else if i = n then (n : ℚ) * t ^ (n - 1)
  else
    binomialLoop n i *
      ((i : ℚ) * t ^ (i - 1) * (1 - t) ^ (n - i) - ((n : ℚ) - i) * t ^ i * (1 - t) ^ (n - i - 1))

/-- FlagGenerator pseudoRandom (lines 65-70): a fixed hash of the grid
indices and a constant seed; the animation time never enters. -/
def pseudoRandom (tr : FloatTrig) (i j : ℕ) (seed : ℚ) : ℚ :=
  let dotVal := (i : ℚ) * 12.9898 + (j : ℚ) * 78.233 + seed * 37.719
  let sinVal := tr.sinF dotVal * 43758.5453
  sinVal - ⌊sinVal⌋

/-- The per-control-point jitter quadruple drawn at lines 247-250: random
phase, amplitude scale, frequency scale and drift, each a fixed hash of the
grid indices with constant seeds 0, 1, 2, 3. -/
def flagPointJitter (tr : FloatTrig) (i j : ℕ) : ℚ × ℚ × ℚ × ℚ :=
  (pseudoRandom tr i j 0 * (2 * tr.piF),
   mixQ 0.7 1.4 (pseudoRandom tr i j 1),
   mixQ 0.8 1.6 (pseudoRandom tr i j 2),
   pseudoRandom tr i j 3)

/-- One animated control point of the flag grid (lines 223-271), written
against an arbitrary jitter table: base plane position plus the wave
displacement attenuated at the pole edge and eased toward the free edge. -/
def flagControlPointJittered (tr : FloatTrig) (jitter : ℕ → ℕ → ℚ × ℚ × ℚ × ℚ)
    (width height : ℚ) (cpU cpV : ℕ) (animationTime waveAmplitude waveFrequency : ℚ)
    (i j : ℕ) : Vec3 :=
  let u := (i : ℚ) / ((cpU : ℚ) - 1)
  let x := mixQ (-(width * 0.5)) (width * 0.5) u
  let dispFactor0 := mixQ 0.25 1 (u * u)
  let dispFactor := if i = 0 then 0 else dispFactor0
  let v := (j : ℚ) / ((cpV : ℚ) - 1)
  let y := mixQ (-(height * 0.5)) (height * 0.5) v
  let wavePhase := animationTime * waveFrequency * 2 * tr.piF
  let randomPhase := (jitter i j).1
  let randomAmplitudeScale := (jitter i j).2.1
  let randomFrequencyScale := (jitter i j).2.2.1
  let randomDrift := (jitter i j).2.2.2
  let baseWave := v * (2 * tr.piF) + wavePhase * randomFrequencyScale + u * 2 + randomPhase
  let lateralNoise := tr.sinF (wavePhase * 0.35 + randomDrift * (2 * tr.piF))
  let verticalNoise := tr.cosF (wavePhase * 0.55 + randomDrift * tr.piF)
  let waveOffsetX :=
    (tr.sinF baseWave + lateralNoise * 0.35) * waveAmplitude * randomAmplitudeScale * dispFactor * 1.1
  let waveOffsetZ :=
    (tr.cosF baseWave + verticalNoise * 0.3) * waveAmplitude * randomAmplitudeScale * dispFactor * 0.95
  let waveOffsetY :=
    tr.sinF (v * tr.piF * 3 + wavePhase * 1.3 + u * 1.5 + randomPhase * 0.5) *
      waveAmplitude * 0.35 * randomAmplitudeScale * dispFactor
  vadd ⟨x, y, 0⟩ ⟨waveOffsetX, waveOffsetY, waveOffsetZ⟩

/-- The animated control point exactly as in the source, with the jitter
computed inline from pseudoRandom. -/
def flagControlPoint (tr : FloatTrig) (width height : ℚ) (cpU cpV : ℕ)
    (animationTime waveAmplitude waveFrequency : ℚ) (i j : ℕ) : Vec3 :=
  flagControlPointJittered tr (flagPointJitter tr) width height cpU cpV
    animationTime waveAmplitude waveFrequency i j

/-- The cross product of glm::cross. -/
def crossV (u v : Vec3) : Vec3 :=
  ⟨u.y * v.z - u.z * v.y, u.z * v.x - u.x * v.z, u.x * v.y - u.y * v.x⟩

/-- Sum of a list of vectors in loop order. -/
def vsum (l : List Vec3) : Vec3 := l.foldl vadd ⟨0, 0, 0⟩

/-- The accumulation over the control grid used for the surface position and
the two tangents: outer loop over i, inner loop over j. -/
def gridSum (cpU cpV : ℕ) (f : ℕ → ℕ → Vec3) : Vec3 :=
  vsum ((List.range cpU).bind (fun i => (List.range cpV).map (f i)))

/-- FlagGenerator::updateFlagVertices (lines 195-338): clamp the control
grid to at least 2 points per axis, build the animated control grid, then
for every surface sample evaluate the tensor-product Bezier position, the
two Bernstein-derivative tangents and the normal from their cross product
with the degenerate fallback folded into the abstract normalize primitive. -/
def updateFlagVertices (tr : FloatTrig) (width height : ℚ)
    (controlPointsU controlPointsV segmentsU segmentsV : ℕ)
    (animationTime waveAmplitude waveFrequency : ℚ) : List FlagVertex :=
  let cpU := max 2 controlPointsU
  let cpV := max 2 controlPointsV
  let cp := fun i j =>
    flagControlPoint tr width height cpU cpV animationTime waveAmplitude waveFrequency i j
  (List.range (segmentsV + 1)).bind (fun v =>
    (List.range (segmentsU + 1)).map (fun u =>
      let uParam := (u : ℚ) / (segmentsU : ℚ)
      let vParam := (v : ℚ) / (segmentsV : ℚ)
      let position := gridSum cpU cpV (fun i j =>
        vsmul (bernsteinBasis (cpU - 1) i uParam * bernsteinBasis (cpV - 1) j vParam) (cp i j))
      let tangentU := gridSum cpU cpV (fun i j =>
        vsmul (bernsteinBasisDerivative (cpU - 1) i uParam * bernsteinBasis (cpV - 1) j vParam)
          (cp i j))
      let tangentV := gridSum cpU cpV (fun i j =>
        vsmul (bernsteinBasis (cpU - 1) i uParam * bernsteinBasisDerivative (cpV - 1) j vParam)
          (cp i j))
      let normal := tr.normF (crossV tangentU tangentV)
      { position := position
        normal := normal
        uv := ⟨uParam, 1 - vParam⟩
        color := ⟨1, 1, 1⟩ }))

/-- Claim C8: the flag surface evaluator is deterministic: it is a plain
function of its argument tuple, so two calls with identical arguments give
identical vertex arrays; and every control point factors through the
time-independent jitter table flagPointJitter, whose entries are fixed
hashes of the grid indices with constant seeds, so no jitter component
depends on the animation time or on any stateful random source. -/
theorem flag_vertices_deterministic :
    (∀ (tr : FloatTrig) (width height : ℚ) (cpU cpV sU sV : ℕ) (time amp freq : ℚ),
      updateFlagVertices tr width height cpU cpV sU sV time amp freq =
        updateFlagVertices tr width height cpU cpV sU sV time amp freq) ∧
    (∀ (tr : FloatTrig) (width height : ℚ) (cpU cpV : ℕ) (time amp freq : ℚ) (i j : ℕ),
      flagControlPoint tr width height cpU cpV time amp freq i j =
        flagControlPointJittered tr (flagPointJitter tr) width height cpU cpV time amp freq i j) :=
  ⟨fun _ _ _ _ _ _ _ _ _ _ => rfl, fun _ _ _ _ _ _ _ _ _ _ => rfl⟩

end CG
